import Mathlib

/-!
Verification of the recipe-recommendation backend.

This file embeds the matching and service logic of the repository in Lean:

* `src/server/src/services/lightweightRecommendationEngine.ts` — the
  keyword-overlap Matching Engine (`getRecommendations`,
  `calculateMatchScore`, `calculateIngredientCoverage`, `isPartialMatch`,
  `validateInputs`);
* `src/server/src/services/recommendationEngine.ts` — the Recommendation
  Service (`getRecommendations`, `validateInputs`, `normalizeIngredients`,
  `getRecommendationsWithRetry`).

Modelling conventions:

* JavaScript floating-point score arithmetic is idealized as exact real
  arithmetic.  A lexical match score is represented exactly by the pair
  `ScoreRep`: `w` is twice the accumulated weight (so that the weight-0.5
  partial matches stay integral) and `n` is the recipe ingredient count.
  The float value of the score is `min ((w/2) / sqrt n / 2) 1`, which is
  `NaN` when `n = 0` (JavaScript `0/0`); `scoreNum` maps a `ScoreRep` to
  `Option ℝ` with `none` playing the role of `NaN`.
* Score comparisons performed by the code (`>= minScore` filtering and the
  `b.match_score - a.match_score` sort comparator) are embedded as boolean
  functions on `ScoreRep` that are proved to agree with the real-number
  comparisons whenever no `NaN` is involved; a `NaN` score compares
  greater-equal to nothing, exactly as in JavaScript.
* `Array.prototype.sort` (stable since ES2019) is modelled by a stable
  insertion sort; stability and sortedness are proved, and the stable
  sorted order is proved unique, which is what makes the engine
  deterministic despite `sort` being specified only up to stability.
* The out-of-process Python model invocation is not part of this
  repository's sources; the Recommendation Service is therefore embedded
  with the per-attempt outcome of the Python call abstracted as an oracle
  `ℕ → Except String SvcResponse` (`.error` = the promise rejected /
  the process failed, `.ok` = parsed JSON response).  Thrown JavaScript
  exceptions are modelled with `Except`, and `await sleep(ms)` is recorded
  as a list of slept time-units (1 unit = 1000 ms).
* String primitives (`toLowerCase`, `trim`, `includes`, `split(/\s+/)`)
  are implemented structurally over the character list of the string so
  that they compute by kernel reduction.  `split(/\s+/)` collapses
  whitespace runs while the embedding splits at every whitespace
  character; the difference only produces extra empty tokens, which the
  `length > 3` guard of `isPartialMatch` ignores.
-/

/-! ### JavaScript string primitives -/

/-- `String.prototype.toLowerCase` on an ASCII letter. -/
def jsToLowerChar (c : Char) : Char :=
  if 65 ≤ c.toNat && c.toNat ≤ 90 then Char.ofNat (c.toNat + 32) else c

/-- `String.prototype.toLowerCase`. -/
def jsToLower (s : String) : String := ⟨s.data.map jsToLowerChar⟩

/-- `String.prototype.trim`: strip whitespace from both ends. -/
def jsTrim (s : String) : String :=
  ⟨((s.data.dropWhile Char.isWhitespace).reverse.dropWhile Char.isWhitespace).reverse⟩

/-- Does the character list contain the needle as a contiguous sublist? -/
def listContainsSublist : List Char → List Char → Bool
  | _, [] => true
  | [], _ :: _ => false
  | h :: t, needle => needle.isPrefixOf (h :: t) || listContainsSublist t needle

/-- `s.includes(sub)` — substring containment. -/
def jsIncludes (s sub : String) : Bool := listContainsSublist s.data sub.data

/-- Split a character list at every whitespace character (see the header
note on `split(/\s+/)`). -/
def splitOnWsChars : List Char → List (List Char)
  | [] => [[]]
  | c :: cs =>
      if c.isWhitespace then [] :: splitOnWsChars cs
      else
        match splitOnWsChars cs with
        | [] => [[c]]
        | t :: ts => (c :: t) :: ts

/-- `s.split(/\s+/)`, up to empty tokens ignored by all callers. -/
def jsSplitWhitespace (s : String) : List String :=
  (splitOnWsChars s.data).map (fun l => ⟨l⟩)

/-! ### Data model (`src/server/src/types/index.ts`) -/

/-- A recipe record; only the fields read by the matching logic are kept
(the remaining fields are carried through the pipeline unchanged). -/
structure Recipe where
  id : ℤ
  name : String
  ingredients : List String
deriving DecidableEq

/-- Exact representation of a lexical match score: `w` is twice the
accumulated match weight and `n` the recipe ingredient count; the
floating-point value of the score is `min ((w/2) / √n / 2) 1`
(`NaN` when `n = 0`). -/
structure ScoreRep where
  w : ℕ
  n : ℕ
deriving DecidableEq

/-- A recipe together with its computed `match_score` (the spread
`{ ...recipe, match_score }`). -/
structure ScoredRecipe where
  recipe : Recipe
  match_score : ScoreRep
deriving DecidableEq

/-- A scored recipe with `ingredient_match_percentage` added (the spread
`{ ...recipe, ingredient_match_percentage }`). -/
structure RecommendedRecipe where
  recipe : Recipe
  match_score : ScoreRep
  ingredient_match_percentage : ℚ
deriving DecidableEq

/-- The lightweight engine's response
(`{ success, count, recommendations, query_ingredients }`). -/
structure LightResponse where
  success : Bool
  count : ℕ
  recommendations : List RecommendedRecipe
  query_ingredients : List String
deriving DecidableEq

/-! ### Score values and score comparisons -/

/-- Numerator of the squared, capped score, scaled by `16 n`:
`min ((w/(4√n))², 1) = cappedNum / (16 n)` when `n ≠ 0`. -/
def cappedNum (s : ScoreRep) : ℕ := min (s.w * s.w) (16 * s.n)

/-- The squared score value as a rational (junk `0/0 = 0` when `n = 0`;
only used through the `n ≠ 0` bridge lemmas). -/
def scoreQ (s : ScoreRep) : ℚ := (cappedNum s : ℚ) / (16 * s.n)

/-- The float value of a score as an idealized real; `none` is `NaN`
(a recipe with an empty ingredient list yields `0 / Math.sqrt(0)`). -/
noncomputable def scoreNum (s : ScoreRep) : Option ℝ :=
  if s.n = 0 then none
  else some (min (((s.w : ℝ) / 2) / Real.sqrt (s.n : ℝ) / 2) 1)

/-- The float value of a score, with `NaN` mapped to the junk value `0`. -/
noncomputable def scoreVal (s : ScoreRep) : ℝ :=
  if s.n = 0 then 0
  else min (((s.w : ℝ) / 2) / Real.sqrt (s.n : ℝ) / 2) 1

/-- The JavaScript test `match_score >= minScore` used by the `filter`
step: `false` whenever the score is `NaN`, otherwise the exact
comparison of the score value with `q`. -/
def scoreGeB (s : ScoreRep) (q : ℚ) : Bool :=
  decide (s.n ≠ 0) && decide (q ≤ 1) &&
    (decide (q ≤ 0) || decide (16 * q * q * (s.n : ℚ) ≤ (s.w : ℚ) * (s.w : ℚ)))

/-- Strict comparison of two score values, as induced by the sort
comparator `(a, b) => b.match_score - a.match_score`; a `NaN` operand
makes the comparator result `NaN`, which `Array.prototype.sort` treats
as `0` (a tie), hence `false` here. -/
def scoreLtB (a b : ScoreRep) : Bool :=
  decide (a.n ≠ 0) && decide (b.n ≠ 0) && decide (cappedNum a * b.n < cappedNum b * a.n)

/-- Equality of two score values (ties of the sort comparator). -/
def scoreEqvB (a b : ScoreRep) : Bool :=
  decide (cappedNum a * b.n = cappedNum b * a.n)

/-! ### Stable sort (model of `Array.prototype.sort` with the descending
score comparator) -/

/-- Insert `x` into a (descending-sorted) list: `x` moves past the
strictly greater elements and lands before the first element not
strictly greater — exactly the position a stable descending sort gives
an element that follows the list elements in the original order. -/
def insertByScoreDesc {α : Type} (key : α → ScoreRep) (x : α) : List α → List α
  | [] => [x]
  | y :: ys =>
      if scoreLtB (key x) (key y) then y :: insertByScoreDesc key x ys
      else x :: y :: ys

/-- Stable descending sort by score — the unique result of
`Array.prototype.sort((a, b) => b.match_score - a.match_score)`. -/
def jsSortByScoreDesc {α : Type} (key : α → ScoreRep) : List α → List α
  | [] => []
  | x :: xs => insertByScoreDesc key x (jsSortByScoreDesc key xs)

/-! ### Lightweight Matching Engine
(`src/server/src/services/lightweightRecommendationEngine.ts`) -/

/-- `isPartialMatch(ing1, ing2)`: some whitespace-delimited token of
length > 3 of one ingredient contains or is contained in some token of
length > 3 of the other. -/
def isPartialMatch (ing1 ing2 : String) : Bool :=
  let words1 := jsSplitWhitespace ing1
  let words2 := jsSplitWhitespace ing2
  words1.any (fun w1 => words2.any (fun w2 =>
    decide (w1.length > 3) && decide (w2.length > 3) &&
      (jsIncludes w1 w2 || jsIncludes w2 w1)))

/-- The exact/substring condition of `calculateMatchScore`:
`recipeIng === userIng || recipeIng.includes(userIng)`. -/
def fullMatchCond (userIng recipeIng : String) : Bool :=
  recipeIng == userIng || jsIncludes recipeIng userIng

/-- The partial-match condition of `calculateMatchScore`
(the `else if` branch):
`isPartialMatch(userIng, recipeIng) || isPartialMatch(recipeIng, userIng)`. -/
def partialMatchCond (userIng recipeIng : String) : Bool :=
  isPartialMatch userIng recipeIng || isPartialMatch recipeIng userIng

/-- The nested `forEach` loops of `calculateMatchScore`, accumulating
`(matchCount, partialMatchCount)`. -/
def matchCounts (userIngredients recipeIngredients : List String) : ℕ × ℕ :=
  userIngredients.foldl (fun acc userIng =>
    recipeIngredients.foldl (fun acc2 recipeIng =>
      if fullMatchCond userIng recipeIng then (acc2.1 + 1, acc2.2)
      else if partialMatchCond userIng recipeIng then (acc2.1, acc2.2 + 1)
      else acc2) acc) (0, 0)

/-- `calculateMatchScore(userIngredients, recipe)`: lowercase the recipe
ingredients, accumulate weights 1.0 / 0.5 per matching pair, and
represent `min ((matchCount + 0.5·partialMatchCount) / √n / 2) 1`
exactly as a `ScoreRep`. -/
def calculateMatchScore (userIngredients : List String) (recipe : Recipe) : ScoreRep :=
  let recipeIngredients := recipe.ingredients.map jsToLower
  let counts := matchCounts userIngredients recipeIngredients
  ⟨2 * counts.1 + counts.2, recipeIngredients.length⟩

/-- The coverage condition of `calculateIngredientCoverage`:
`recipeIng.includes(userIng) || userIng.includes(recipeIng) ||
isPartialMatch(userIng, recipeIng)`. -/
def coveredCond (userIngredients : List String) (recipeIng : String) : Bool :=
  userIngredients.any (fun userIng =>
    jsIncludes recipeIng userIng || jsIncludes userIng recipeIng ||
      isPartialMatch userIng recipeIng)

/-- The `forEach` loop of `calculateIngredientCoverage`, counting covered
recipe ingredients. -/
def coveredCount (userIngredients recipeIngredients : List String) : ℕ :=
  recipeIngredients.foldl (fun acc recipeIng =>
    if coveredCond userIngredients recipeIng then acc + 1 else acc) 0

/-- `calculateIngredientCoverage(userIngredients, recipe)` =
`coveredCount / recipeIngredients.length` (exact rational; the `n = 0`
case, `0/0 = NaN` in JavaScript, is junk `0` here and unreachable in the
pipeline because `NaN` scores never pass the `minScore` filter). -/
def calculateIngredientCoverage (userIngredients : List String) (recipe : Recipe) : ℚ :=
  let recipeIngredients := recipe.ingredients.map jsToLower
  (coveredCount userIngredients recipeIngredients : ℚ) / (recipeIngredients.length : ℚ)

/-- The normalization step of the lightweight engine's
`getRecommendations`: `ingredients.map(ing => ing.toLowerCase().trim())`
— no deduplication. -/
def lightNormalizeQuery (ingredients : List String) : List String :=
  ingredients.map (fun ing => jsTrim (jsToLower ing))

/-- The corpus scoring step: `recipes.map(recipe => ({ ...recipe,
match_score: score }))`. -/
def scoredCorpus (recipes : List Recipe) (normalized : List String) : List ScoredRecipe :=
  recipes.map (fun recipe => ⟨recipe, calculateMatchScore normalized recipe⟩)

/-- The `filter(r => r.match_score >= minScore)` step. -/
def filteredScored (recipes : List Recipe) (normalized : List String) (minScore : ℚ) :
    List ScoredRecipe :=
  (scoredCorpus recipes normalized).filter (fun sr => scoreGeB sr.match_score minScore)

/-- The final map adding `ingredient_match_percentage = coverage * 100`. -/
def addCoverage (normalized : List String) (sr : ScoredRecipe) : RecommendedRecipe :=
  ⟨sr.recipe, sr.match_score, calculateIngredientCoverage normalized sr.recipe * 100⟩

/-- The lightweight engine's `getRecommendations(ingredients, topK,
minScore)`: normalize, score, filter, sort descending, truncate to
`topK`, add coverage, and return `success: true` unconditionally
(`validateInputs` is never invoked). -/
def lightweightGetRecommendations (recipes : List Recipe) (ingredients : List String)
    (topK : ℕ) (minScore : ℚ) : LightResponse :=
  let normalized := lightNormalizeQuery ingredients
  let filtered :=
    (jsSortByScoreDesc ScoredRecipe.match_score
      (filteredScored recipes normalized minScore)).take topK
  let recommendations := filtered.map (addCoverage normalized)
  ⟨true, recommendations.length, recommendations, ingredients⟩

/-- The lightweight engine's (never called) `validateInputs`. -/
def lightValidateInputs (ingredients : List String) (topK : ℕ) (minScore : ℚ) :
    Except String Unit :=
  if ingredients.isEmpty then .error "At least one ingredient is required"
  else if topK < 1 || topK > 50 then .error "topK must be between 1 and 50"
  else if minScore < 0 || minScore > 1 then .error "minScore must be between 0 and 1"
  else .ok ()

/-! ### Recommendation Service
(`src/server/src/services/recommendationEngine.ts`) -/

/-- The service's response contract (`RecommendationResponse`). -/
structure SvcResponse where
  success : Bool
  count : ℕ
  recommendations : List RecommendedRecipe
  query : List String
  error : Option String
deriving DecidableEq

/-- The structured failure the service constructs in its `catch` blocks. -/
def mkSvcFailure (ingredients : List String) (msg : String) : SvcResponse :=
  ⟨false, 0, [], ingredients, some msg⟩

/-- The service's `validateInputs` (`throw` modelled as `.error`); `topK`
is an integer by type, so the `Number.isInteger` check is implicit. -/
def svcValidateInputs (ingredients : List String) (topK : ℤ) (minScore : ℚ) :
    Except String Unit :=
  if ingredients.isEmpty then .error "At least one ingredient must be provided"
  else if ingredients.any (fun ing => (jsTrim ing).length = 0) then
    .error "All ingredients must be non-empty strings"
  else if topK ≤ 0 then .error "topK must be a positive integer"
  else if topK > 100 then .error "topK cannot exceed 100"
  else if minScore < 0 || minScore > 1 then
    .error "minScore must be a number between 0 and 1"
  else .ok ()

/-- The mechanics of `Array.from(new Set(...))`: walk the list keeping
the first occurrence of each element, tracking the set of elements seen
so far. -/
def dedupKeepFirstAux (seen : List String) : List String → List String
  | [] => []
  | x :: xs =>
      if x ∈ seen then dedupKeepFirstAux seen xs
      else x :: dedupKeepFirstAux (x :: seen) xs

/-- `Array.from(new Set(l))`: keep the first occurrence of each string,
in order. -/
def dedupKeepFirst (l : List String) : List String := dedupKeepFirstAux [] l

/-- `normalizeIngredients(ingredients)`. -/
def normalizeIngredients (ingredients : List String) : List String :=
  dedupKeepFirst
    ((ingredients.map (fun ing => jsToLower (jsTrim ing))).filter
      (fun ing => ing.length > 0))

/-- The service's `getRecommendations` for one attempt.  `validateInputs`
is called before the `try` block, so a validation failure propagates as
a thrown error (`.error`); a rejected Python call (`pyResult = .error`)
is caught by the `catch` block and converted into a structured
`success: false` response (`.ok`). -/
def svcGetRecommendations (ingredients : List String) (topK : ℤ) (minScore : ℚ)
    (pyResult : Except String SvcResponse) : Except String SvcResponse :=
  match svcValidateInputs ingredients topK minScore with
  | .error e => .error e
  | .ok _ =>
      match pyResult with
      | .ok r => .ok r
      | .error e => .ok (mkSvcFailure ingredients e)

/-- The `for (attempt = 0; attempt <= maxRetries; attempt++)` loop of
`getRecommendationsWithRetry`.  Returns the response together with the
chronological list of backoff sleeps, in time-units of 1000 ms
(`Math.pow(2, attempt)` before re-attempting).  `oracle k` is the
outcome of the Python call during attempt `k`. -/
def svcRetryGo (oracle : ℕ → Except String SvcResponse) (ingredients : List String)
    (topK : ℤ) (minScore : ℚ) (maxRetries : ℕ) :
    ℕ → ℕ → Option String → SvcResponse × List ℕ
  | _, 0, lastError =>
      (mkSvcFailure ingredients
        ("Failed after " ++ toString (maxRetries + 1) ++ " attempts: " ++
          lastError.getD "undefined"), [])
  | attempt, remaining + 1, _ =>
      match svcGetRecommendations ingredients topK minScore (oracle attempt) with
      | .ok r => (r, [])
      | .error e =>
          let rest :=
            svcRetryGo oracle ingredients topK minScore maxRetries
              (attempt + 1) remaining (some e)
          if attempt < maxRetries then (rest.1, 2 ^ attempt :: rest.2) else rest

/-- `getRecommendationsWithRetry(ingredients, topK, minScore, maxRetries)`:
up to `maxRetries + 1` attempts, exponential backoff between failed
attempts, immediate return of the first attempt that does not throw. -/
def svcGetRecommendationsWithRetry (oracle : ℕ → Except String SvcResponse)
    (ingredients : List String) (topK : ℤ) (minScore : ℚ) (maxRetries : ℕ) :
    SvcResponse × List ℕ :=
  svcRetryGo oracle ingredients topK minScore maxRetries 0 (maxRetries + 1) none

/-! ### Declarative reformulation of the accumulation loops -/

/-- Total number of (query ingredient, recipe ingredient) pairs taking the
`matchCount++` branch. -/
def fullMatchesTotal (userIngredients recipeIngredients : List String) : ℕ :=
  (userIngredients.map
    (fun userIng => recipeIngredients.countP (fun recipeIng => fullMatchCond userIng recipeIng))).sum

/-- Total number of pairs taking the `partialMatchCount++` branch (the
`else if`, so pairs that are not full matches). -/
def partialMatchesTotal (userIngredients recipeIngredients : List String) : ℕ :=
  (userIngredients.map
    (fun userIng => recipeIngredients.countP
      (fun recipeIng => !fullMatchCond userIng recipeIng && partialMatchCond userIng recipeIng))).sum

theorem matchCounts_inner (userIng : String) (recipeIngredients : List String) :
    ∀ acc : ℕ × ℕ,
      recipeIngredients.foldl (fun acc2 recipeIng =>
          if fullMatchCond userIng recipeIng then (acc2.1 + 1, acc2.2)
          else if partialMatchCond userIng recipeIng then (acc2.1, acc2.2 + 1)
          else acc2) acc =
        (acc.1 + recipeIngredients.countP (fun recipeIng => fullMatchCond userIng recipeIng),
         acc.2 + recipeIngredients.countP
           (fun recipeIng => !fullMatchCond userIng recipeIng && partialMatchCond userIng recipeIng)) := by
  induction recipeIngredients with
  | nil => intro acc; simp
  | cons recipeIng rest ih =>
      intro acc
      by_cases hfull : fullMatchCond userIng recipeIng = true
      · simp [List.countP_cons, hfull, ih, Prod.ext_iff]
        omega
      · rw [Bool.not_eq_true] at hfull
        by_cases hpart : partialMatchCond userIng recipeIng = true
        · simp [List.countP_cons, hfull, hpart, ih, Prod.ext_iff]
          omega
        · rw [Bool.not_eq_true] at hpart
          simp [List.countP_cons, hfull, hpart, ih, Prod.ext_iff]

theorem matchCounts_eq (userIngredients recipeIngredients : List String) :
    matchCounts userIngredients recipeIngredients =
      (fullMatchesTotal userIngredients recipeIngredients,
       partialMatchesTotal userIngredients recipeIngredients) := by
  suffices h : ∀ acc : ℕ × ℕ,
      userIngredients.foldl (fun acc userIng =>
        recipeIngredients.foldl (fun acc2 recipeIng =>
          if fullMatchCond userIng recipeIng then (acc2.1 + 1, acc2.2)
          else if partialMatchCond userIng recipeIng then (acc2.1, acc2.2 + 1)
          else acc2) acc) acc =
        (acc.1 + fullMatchesTotal userIngredients recipeIngredients,
         acc.2 + partialMatchesTotal userIngredients recipeIngredients) by
    simpa [matchCounts] using h (0, 0)
  induction userIngredients with
  | nil => intro acc; simp [fullMatchesTotal, partialMatchesTotal]
  | cons userIng rest ih =>
      intro acc
      rw [List.foldl_cons, matchCounts_inner, ih]
      simp only [fullMatchesTotal, partialMatchesTotal, List.map_cons, List.sum_cons,
        Prod.mk.injEq]
      omega

theorem coveredCount_eq (userIngredients recipeIngredients : List String) :
    coveredCount userIngredients recipeIngredients =
      recipeIngredients.countP (coveredCond userIngredients) := by
  suffices h : ∀ acc : ℕ,
      recipeIngredients.foldl (fun acc recipeIng =>
        if coveredCond userIngredients recipeIng then acc + 1 else acc) acc =
        acc + recipeIngredients.countP (coveredCond userIngredients) by
    simpa [coveredCount] using h 0
  induction recipeIngredients with
  | nil => intro acc; simp
  | cons recipeIng rest ih =>
      intro acc
      by_cases hc : coveredCond userIngredients recipeIng = true
      · simp [List.countP_cons, hc, ih]
        omega
      · rw [Bool.not_eq_true] at hc
        simp [List.countP_cons, hc, ih]

/-! ### Bridges between the boolean comparisons and the score values -/

theorem scoreQ_nonneg (s : ScoreRep) : 0 ≤ scoreQ s := by
  unfold scoreQ
  positivity

theorem scoreLtB_iff {a b : ScoreRep} (ha : a.n ≠ 0) (hb : b.n ≠ 0) :
    scoreLtB a b = true ↔ scoreQ a < scoreQ b := by
  have ha' : (0 : ℚ) < 16 * a.n := by positivity
  have hb' : (0 : ℚ) < 16 * b.n := by positivity
  rw [scoreLtB, scoreQ, scoreQ, div_lt_div_iff ha' hb']
  simp only [Bool.and_eq_true, decide_eq_true_eq]
  constructor
  · rintro ⟨⟨-, -⟩, h⟩
    have h' : (cappedNum a : ℚ) * b.n < (cappedNum b : ℚ) * a.n := by exact_mod_cast h
    nlinarith
  · intro h
    refine ⟨⟨ha, hb⟩, ?_⟩
    have h' : (cappedNum a : ℚ) * b.n < (cappedNum b : ℚ) * a.n := by nlinarith
    exact_mod_cast h'

theorem scoreLtB_eq_false_iff {a b : ScoreRep} (ha : a.n ≠ 0) (hb : b.n ≠ 0) :
    scoreLtB a b = false ↔ scoreQ b ≤ scoreQ a := by
  rw [← Bool.not_eq_true, scoreLtB_iff ha hb, not_lt]

theorem scoreEqvB_iff {a b : ScoreRep} (ha : a.n ≠ 0) (hb : b.n ≠ 0) :
    scoreEqvB a b = true ↔ scoreQ a = scoreQ b := by
  have ha' : (0 : ℚ) < 16 * a.n := by positivity
  have hb' : (0 : ℚ) < 16 * b.n := by positivity
  rw [scoreEqvB, scoreQ, scoreQ, div_eq_div_iff ha'.ne' hb'.ne', decide_eq_true_eq]
  constructor
  · intro h
    have h' : (cappedNum a : ℚ) * b.n = (cappedNum b : ℚ) * a.n := by exact_mod_cast h
    nlinarith
  · intro h
    have h' : (cappedNum a : ℚ) * b.n = (cappedNum b : ℚ) * a.n := by nlinarith
    exact_mod_cast h'

theorem scoreEqvB_refl (a : ScoreRep) : scoreEqvB a a = true := by
  simp [scoreEqvB]

theorem scoreEqvB_symm {a b : ScoreRep} (h : scoreEqvB a b = true) : scoreEqvB b a = true := by
  simp only [scoreEqvB, decide_eq_true_eq] at h ⊢
  omega

theorem scoreLtB_n_ne_zero {a b : ScoreRep} (h : scoreLtB a b = true) :
    a.n ≠ 0 ∧ b.n ≠ 0 := by
  simp only [scoreLtB, Bool.and_eq_true, decide_eq_true_eq] at h
  exact ⟨h.1.1, h.1.2⟩

theorem scoreGeB_n_ne_zero {s : ScoreRep} {q : ℚ} (h : scoreGeB s q = true) : s.n ≠ 0 := by
  simp only [scoreGeB, Bool.and_eq_true, decide_eq_true_eq] at h
  exact h.1.1

theorem scoreVal_nonneg (s : ScoreRep) : 0 ≤ scoreVal s := by
  unfold scoreVal
  split
  · exact le_refl 0
  · exact le_min (by positivity) zero_le_one

theorem scoreVal_le_one (s : ScoreRep) : scoreVal s ≤ 1 := by
  unfold scoreVal
  split
  · exact zero_le_one
  · exact min_le_right _ _

theorem scoreQ_cast (s : ScoreRep) (h : s.n ≠ 0) :
    ((scoreQ s : ℚ) : ℝ) = min ((s.w : ℝ) ^ 2 / (16 * s.n)) 1 := by
  have hn : (0 : ℝ) < 16 * (s.n : ℝ) := by
    have : 0 < s.n := Nat.pos_of_ne_zero h
    positivity
  rw [scoreQ, cappedNum]
  push_cast [Nat.cast_min]
  rw [← min_div_div_right hn.le]
  congr 1
  · ring
  · field_simp

theorem scoreVal_sq (s : ScoreRep) (h : s.n ≠ 0) :
    scoreVal s ^ 2 = ((scoreQ s : ℚ) : ℝ) := by
  have hn : (0 : ℝ) < (s.n : ℝ) := by exact_mod_cast Nat.pos_of_ne_zero h
  have hsqrt : (0 : ℝ) < Real.sqrt (s.n : ℝ) := Real.sqrt_pos.mpr hn
  have hx : (0 : ℝ) ≤ (s.w : ℝ) / 2 / Real.sqrt (s.n : ℝ) / 2 := by positivity
  rw [scoreVal, if_neg h, scoreQ_cast s h]
  have hxsq : ((s.w : ℝ) / 2 / Real.sqrt (s.n : ℝ) / 2) ^ 2 =
      (s.w : ℝ) ^ 2 / (16 * s.n) := by
    rw [div_pow, div_pow, div_pow]
    rw [Real.sq_sqrt hn.le]
    ring
  rcases le_total ((s.w : ℝ) / 2 / Real.sqrt (s.n : ℝ) / 2) 1 with hle | hge
  · rw [min_eq_left hle, min_eq_left, hxsq]
    rw [← hxsq]
    nlinarith
  · rw [min_eq_right hge, min_eq_right, one_pow]
    rw [← hxsq]
    nlinarith

theorem scoreVal_le_iff {a b : ScoreRep} (ha : a.n ≠ 0) (hb : b.n ≠ 0) :
    scoreVal a ≤ scoreVal b ↔ scoreQ a ≤ scoreQ b := by
  rw [← pow_le_pow_iff_left (scoreVal_nonneg a) (scoreVal_nonneg b) (two_ne_zero),
    scoreVal_sq a ha, scoreVal_sq b hb]
  exact_mod_cast Iff.rfl

theorem scoreVal_eq_iff {a b : ScoreRep} (ha : a.n ≠ 0) (hb : b.n ≠ 0) :
    scoreVal a = scoreVal b ↔ scoreQ a = scoreQ b := by
  constructor
  · intro h
    exact le_antisymm ((scoreVal_le_iff ha hb).mp h.le) ((scoreVal_le_iff hb ha).mp h.ge)
  · intro h
    exact le_antisymm ((scoreVal_le_iff ha hb).mpr h.le) ((scoreVal_le_iff hb ha).mpr h.ge)

theorem scoreNum_eq_some (s : ScoreRep) (h : s.n ≠ 0) :
    scoreNum s = some (scoreVal s) := by
  rw [scoreNum, scoreVal, if_neg h, if_neg h]

theorem scoreNum_eq_none (s : ScoreRep) (h : s.n = 0) : scoreNum s = none := by
  rw [scoreNum, if_pos h]

/-! ### Properties of the stable sort -/

section SortLemmas

variable {α : Type} (key : α → ScoreRep)

theorem insertByScoreDesc_perm (x : α) (l : List α) :
    (insertByScoreDesc key x l).Perm (x :: l) := by
  induction l with
  | nil => exact List.Perm.refl _
  | cons y ys ih =>
      rw [insertByScoreDesc]
      by_cases hlt : scoreLtB (key x) (key y) = true
      · simp only [hlt, if_true]
        exact (ih.cons y).trans (List.Perm.swap x y ys)
      · rw [Bool.not_eq_true] at hlt
        simp only [hlt, Bool.false_eq_true, if_false]
        exact List.Perm.refl _

theorem mem_insertByScoreDesc {x z : α} {l : List α}
    (h : z ∈ insertByScoreDesc key x l) : z = x ∨ z ∈ l := by
  have := (insertByScoreDesc_perm key x l).mem_iff.mp h
  simpa using this

theorem jsSortByScoreDesc_perm (l : List α) : (jsSortByScoreDesc key l).Perm l := by
  induction l with
  | nil => exact List.Perm.refl _
  | cons x xs ih =>
      rw [jsSortByScoreDesc]
      exact (insertByScoreDesc_perm key x _).trans (ih.cons x)

theorem mem_jsSortByScoreDesc {z : α} {l : List α}
    (h : z ∈ jsSortByScoreDesc key l) : z ∈ l :=
  (jsSortByScoreDesc_perm key l).mem_iff.mp h

theorem insertByScoreDesc_pairwise {x : α} {l : List α}
    (hx : (key x).n ≠ 0) (hl : ∀ z ∈ l, (key z).n ≠ 0)
    (h : l.Pairwise (fun a b => scoreLtB (key a) (key b) = false)) :
    (insertByScoreDesc key x l).Pairwise (fun a b => scoreLtB (key a) (key b) = false) := by
  induction l with
  | nil => simp [insertByScoreDesc]
  | cons y ys ih =>
      have hy : (key y).n ≠ 0 := hl y (List.mem_cons_self y ys)
      have hys : ∀ z ∈ ys, (key z).n ≠ 0 := fun z hz => hl z (List.mem_cons_of_mem y hz)
      have hrel : ∀ b ∈ ys, scoreLtB (key y) (key b) = false :=
        fun b hb => List.rel_of_pairwise_cons h hb
      rw [insertByScoreDesc]
      by_cases hlt : scoreLtB (key x) (key y) = true
      · simp only [hlt, if_true]
        refine List.Pairwise.cons ?_ (ih hys h.of_cons)
        intro z hz
        rcases mem_insertByScoreDesc key hz with rfl | hz'
        · rw [scoreLtB_eq_false_iff hy hx]
          exact ((scoreLtB_iff hx hy).mp hlt).le
        · exact hrel z hz'
      · rw [Bool.not_eq_true] at hlt
        simp only [hlt, Bool.false_eq_true, if_false]
        refine List.Pairwise.cons ?_ h
        intro z hz
        rcases List.mem_cons.mp hz with rfl | hz'
        · exact hlt
        · have hz0 : (key z).n ≠ 0 := hys z hz'
          have h1 : scoreQ (key y) ≤ scoreQ (key x) := (scoreLtB_eq_false_iff hx hy).mp hlt
          have h2 : scoreQ (key z) ≤ scoreQ (key y) :=
            (scoreLtB_eq_false_iff hy hz0).mp (hrel z hz')
          exact (scoreLtB_eq_false_iff hx hz0).mpr (h2.trans h1)

theorem jsSortByScoreDesc_pairwise {l : List α} (hl : ∀ z ∈ l, (key z).n ≠ 0) :
    (jsSortByScoreDesc key l).Pairwise (fun a b => scoreLtB (key a) (key b) = false) := by
  induction l with
  | nil => simp [jsSortByScoreDesc]
  | cons x xs ih =>
      rw [jsSortByScoreDesc]
      have hx : (key x).n ≠ 0 := hl x (List.mem_cons_self x xs)
      have hxs : ∀ z ∈ xs, (key z).n ≠ 0 := fun z hz => hl z (List.mem_cons_of_mem x hz)
      exact insertByScoreDesc_pairwise key hx
        (fun z hz => hxs z (mem_jsSortByScoreDesc key hz)) (ih hxs)

theorem insertByScoreDesc_filter_eqv_pos {x : α} {s : ScoreRep} (hs : s.n ≠ 0)
    (hx : scoreEqvB (key x) s = true) (l : List α) :
    (insertByScoreDesc key x l).filter (fun z => scoreEqvB (key z) s) =
      x :: l.filter (fun z => scoreEqvB (key z) s) := by
  induction l with
  | nil => simp [insertByScoreDesc, hx]
  | cons y ys ih =>
      rw [insertByScoreDesc]
      by_cases hlt : scoreLtB (key x) (key y) = true
      · obtain ⟨hxn, hyn⟩ := scoreLtB_n_ne_zero hlt
        have hyeqv : scoreEqvB (key y) s = false := by
          by_contra hc
          rw [Bool.not_eq_false] at hc
          have h1 : scoreQ (key x) = scoreQ s := (scoreEqvB_iff hxn hs).mp hx
          have h2 : scoreQ (key y) = scoreQ s := (scoreEqvB_iff hyn hs).mp hc
          have h3 : scoreQ (key x) < scoreQ (key y) := (scoreLtB_iff hxn hyn).mp hlt
          rw [h1, h2] at h3
          exact lt_irrefl _ h3
        simp only [hlt, if_true, List.filter_cons, hyeqv, Bool.false_eq_true, if_false]
        exact ih
      · rw [Bool.not_eq_true] at hlt
        simp only [hlt, Bool.false_eq_true, if_false, List.filter_cons, hx, if_true]

theorem insertByScoreDesc_filter_eqv_neg {x : α} {s : ScoreRep}
    (hx : scoreEqvB (key x) s = false) (l : List α) :
    (insertByScoreDesc key x l).filter (fun z => scoreEqvB (key z) s) =
      l.filter (fun z => scoreEqvB (key z) s) := by
  induction l with
  | nil => simp [insertByScoreDesc, hx]
  | cons y ys ih =>
      rw [insertByScoreDesc]
      by_cases hlt : scoreLtB (key x) (key y) = true
      · simp only [hlt, if_true, List.filter_cons]
        rw [ih]
      · rw [Bool.not_eq_true] at hlt
        simp only [hlt, Bool.false_eq_true, if_false, List.filter_cons, hx]

theorem jsSortByScoreDesc_filter_eqv {s : ScoreRep} (hs : s.n ≠ 0) (l : List α) :
    (jsSortByScoreDesc key l).filter (fun z => scoreEqvB (key z) s) =
      l.filter (fun z => scoreEqvB (key z) s) := by
  induction l with
  | nil => rfl
  | cons x xs ih =>
      rw [jsSortByScoreDesc]
      by_cases hx : scoreEqvB (key x) s = true
      · rw [insertByScoreDesc_filter_eqv_pos key hs hx, ih]
        simp [List.filter_cons, hx]
      · rw [Bool.not_eq_true] at hx
        rw [insertByScoreDesc_filter_eqv_neg key hx, ih]
        simp [List.filter_cons, hx]

end SortLemmas

/-! ### Uniqueness of the stable descending order -/

theorem filter_erase_eq {α : Type} [DecidableEq α] (p : α → Bool) (a : α) :
    ∀ l : List α, (l.erase a).filter p =
      if p a = true then (l.filter p).erase a else l.filter p := by
  intro l
  induction l with
  | nil => simp
  | cons b bs ih =>
      by_cases hba : b = a
      · subst hba
        rw [List.erase_cons_head]
        by_cases hpa : p b = true
        · simp [List.filter_cons, hpa, List.erase_cons_head]
        · rw [Bool.not_eq_true] at hpa
          simp [List.filter_cons, hpa]
      · rw [List.erase_cons_tail (by simp [hba])]
        by_cases hpb : p b = true
        · by_cases hpa : p a = true
          · simp only [List.filter_cons, hpb, if_pos, if_true, hpa, ih]
            rw [List.erase_cons_tail (by simp [hba])]
          · rw [Bool.not_eq_true] at hpa
            simp only [List.filter_cons, hpb, if_true, hpa, Bool.false_eq_true, if_false, ih]
        · rw [Bool.not_eq_true] at hpb
          by_cases hpa : p a = true
          · simp only [List.filter_cons, hpb, Bool.false_eq_true, if_false, hpa, if_true, ih]
          · rw [Bool.not_eq_true] at hpa
            simp only [List.filter_cons, hpb, Bool.false_eq_true, if_false, hpa, ih]

/-- A list is a possible result of the JavaScript stable sort of `l` with
the descending score comparator: a permutation of `l`, pairwise
non-increasing for the comparator, and preserving the relative order of
the elements of every score class. -/
def stableSortDescSpec {α : Type} (key : α → ScoreRep) (l l' : List α) : Prop :=
  l'.Perm l ∧
  l'.Pairwise (fun a b => scoreLtB (key a) (key b) = false) ∧
  ∀ s : ScoreRep, s.n ≠ 0 →
    l'.filter (fun z => scoreEqvB (key z) s) = l.filter (fun z => scoreEqvB (key z) s)

theorem jsSortByScoreDesc_spec {α : Type} (key : α → ScoreRep) (l : List α)
    (hl : ∀ z ∈ l, (key z).n ≠ 0) :
    stableSortDescSpec key l (jsSortByScoreDesc key l) :=
  ⟨jsSortByScoreDesc_perm key l, jsSortByScoreDesc_pairwise key hl,
   fun s hs => jsSortByScoreDesc_filter_eqv key hs l⟩

theorem stableSortDescSpec_unique {α : Type} [DecidableEq α] (key : α → ScoreRep) :
    ∀ (l₁ l l₂ : List α), (∀ z ∈ l, (key z).n ≠ 0) →
      stableSortDescSpec key l l₁ → stableSortDescSpec key l l₂ → l₁ = l₂ := by
  intro l₁
  induction l₁ with
  | nil =>
      intro l l₂ _ h₁ h₂
      have hl : l = [] := (h₁.1.symm.eq_nil)
      subst hl
      exact (h₂.1.eq_nil).symm
  | cons x t₁ ih =>
      intro l l₂ H h₁ h₂
      obtain ⟨hperm₁, hpair₁, hstab₁⟩ := h₁
      obtain ⟨hperm₂, hpair₂, hstab₂⟩ := h₂
      have hxl : x ∈ l := hperm₁.mem_iff.mp (List.mem_cons_self x t₁)
      have hxn : (key x).n ≠ 0 := H x hxl
      obtain ⟨y, t₂, rfl⟩ : ∃ y t₂, l₂ = y :: t₂ := by
        cases l₂ with
        | nil =>
            exact absurd (hperm₂.symm.mem_iff.mp hxl) (List.not_mem_nil x)
        | cons y t₂ => exact ⟨y, t₂, rfl⟩
      have hyl : y ∈ l := hperm₂.mem_iff.mp (List.mem_cons_self y t₂)
      have hyn : (key y).n ≠ 0 := H y hyl
      have hyx : y = x := by
        by_cases heq : scoreEqvB (key y) (key x) = true
        · have h1 := hstab₁ (key x) hxn
          have h2 := hstab₂ (key x) hxn
          rw [List.filter_cons, if_pos (by simpa using scoreEqvB_refl (key x))] at h1
          rw [List.filter_cons, if_pos (by simpa using heq)] at h2
          have := h2.trans h1.symm
          exact (List.cons.injEq _ _ _ _ ▸ this).1
        · exfalso
          have hyl₁ : y ∈ x :: t₁ := hperm₁.mem_iff.mpr hyl
          have hxl₂ : x ∈ y :: t₂ := hperm₂.mem_iff.mpr hxl
          rcases List.mem_cons.mp hyl₁ with rfl | hyt₁
          · exact heq (scoreEqvB_refl (key y))
          rcases List.mem_cons.mp hxl₂ with rfl | hxt₂
          · exact heq (scoreEqvB_refl (key x))
          have hle₁ : scoreQ (key y) ≤ scoreQ (key x) :=
            (scoreLtB_eq_false_iff hxn hyn).mp (List.rel_of_pairwise_cons hpair₁ hyt₁)
          have hle₂ : scoreQ (key x) ≤ scoreQ (key y) :=
            (scoreLtB_eq_false_iff hyn hxn).mp (List.rel_of_pairwise_cons hpair₂ hxt₂)
          exact heq ((scoreEqvB_iff hyn hxn).mpr (le_antisymm hle₁ hle₂))
      rw [hyx] at hperm₂ hpair₂ hstab₂
      rw [hyx]
      have H' : ∀ z ∈ l.erase x, (key z).n ≠ 0 :=
        fun z hz => H z (List.mem_of_mem_erase hz)
      have hcons : l.Perm (x :: l.erase x) := List.perm_cons_erase hxl
      have tails : ∀ t : List α,
          (x :: t).Perm l →
          (x :: t).Pairwise (fun a b => scoreLtB (key a) (key b) = false) →
          (∀ s : ScoreRep, s.n ≠ 0 →
            (x :: t).filter (fun z => scoreEqvB (key z) s) =
              l.filter (fun z => scoreEqvB (key z) s)) →
          stableSortDescSpec key (l.erase x) t := by
        intro t hperm hpair hstab
        refine ⟨(hperm.trans hcons).cons_inv, hpair.of_cons, ?_⟩
        intro s hs
        have h1 := hstab s hs
        by_cases hxs : scoreEqvB (key x) s = true
        · rw [List.filter_cons, if_pos (by simpa using hxs)] at h1
          rw [filter_erase_eq _ x l, if_pos hxs, ← h1, List.erase_cons_head]
        · rw [Bool.not_eq_true] at hxs
          rw [List.filter_cons, if_neg (by simp [hxs])] at h1
          rw [filter_erase_eq _ x l, if_neg (by simp [hxs]), ← h1]
      have ht₁ : stableSortDescSpec key (l.erase x) t₁ := tails t₁ hperm₁ hpair₁ hstab₁
      have ht₂ : stableSortDescSpec key (l.erase x) t₂ := tails t₂ hperm₂ hpair₂ hstab₂
      rw [ih (l.erase x) t₂ H' ht₁ ht₂]

/-! ### Pipeline lemmas for the lightweight engine -/

/-- Forget the coverage field again (left inverse of `addCoverage`). -/
def recommendedToScored (rr : RecommendedRecipe) : ScoredRecipe :=
  ⟨rr.recipe, rr.match_score⟩

theorem recommendedToScored_addCoverage (normalized : List String) (sr : ScoredRecipe) :
    recommendedToScored (addCoverage normalized sr) = sr := rfl

theorem mem_filteredScored {recipes : List Recipe} {normalized : List String}
    {minScore : ℚ} {sr : ScoredRecipe}
    (h : sr ∈ filteredScored recipes normalized minScore) :
    sr.match_score.n ≠ 0 ∧
      sr.match_score = calculateMatchScore normalized sr.recipe ∧ sr.recipe ∈ recipes := by
  rw [filteredScored, List.mem_filter] at h
  obtain ⟨hmem, hge⟩ := h
  rw [scoredCorpus, List.mem_map] at hmem
  obtain ⟨r, hr, rfl⟩ := hmem
  exact ⟨scoreGeB_n_ne_zero hge, rfl, hr⟩

theorem filteredScored_n_ne_zero {recipes : List Recipe} {normalized : List String}
    {minScore : ℚ} :
    ∀ sr ∈ filteredScored recipes normalized minScore, sr.match_score.n ≠ 0 :=
  fun _ h => (mem_filteredScored h).1

theorem take_filter_eq_take {α : Type} (p : α → Bool) :
    ∀ (l : List α) (k : ℕ), ∃ j, (l.take k).filter p = (l.filter p).take j := by
  intro l
  induction l with
  | nil => intro k; exact ⟨0, by simp⟩
  | cons x xs ih =>
      intro k
      cases k with
      | zero => exact ⟨0, by simp⟩
      | succ k =>
          obtain ⟨j, hj⟩ := ih k
          by_cases hx : p x = true
          · exact ⟨j + 1, by simp [List.filter_cons, hx, hj]⟩
          · rw [Bool.not_eq_true] at hx
            exact ⟨j, by simp [List.filter_cons, hx, hj]⟩

theorem mem_lightweight_recommendations {recipes : List Recipe} {ingredients : List String}
    {topK : ℕ} {minScore : ℚ} {rr : RecommendedRecipe}
    (h : rr ∈ (lightweightGetRecommendations recipes ingredients topK minScore).recommendations) :
    ∃ sr ∈ filteredScored recipes (lightNormalizeQuery ingredients) minScore,
      rr = addCoverage (lightNormalizeQuery ingredients) sr := by
  rw [lightweightGetRecommendations] at h
  simp only [List.mem_map] at h
  obtain ⟨sr, hsr, rfl⟩ := h
  refine ⟨sr, ?_, rfl⟩
  exact mem_jsSortByScoreDesc ScoredRecipe.match_score
    ((List.take_sublist _ _).mem hsr)

/-! ### Claim C1 — ranking order, truncation, tie-breaking -/

/-- **C1** (counterexample): against the corpus `[{id 2, ["egg"]},
{id 1, ["egg"]}]` and query `["egg"]`, both recipes get the identical
match score `⟨2, 1⟩` (value 0.5), and `rank` returns them in corpus
order, ids `[2, 1]` — not by recipe identifier ascending as the claim
states (the sort comparator has no tie-break; the stable sort keeps the
corpus order). -/
theorem c1_tie_not_id_ascending :
    ((lightweightGetRecommendations
        [⟨2, "B", ["egg"]⟩, ⟨1, "A", ["egg"]⟩] ["egg"] 5 0).recommendations.map
      (fun rr => rr.recipe.id)) = [2, 1] ∧
    ((lightweightGetRecommendations
        [⟨2, "B", ["egg"]⟩, ⟨1, "A", ["egg"]⟩] ["egg"] 5 0).recommendations.map
      (fun rr => rr.match_score)) = [⟨2, 1⟩, ⟨2, 1⟩] := by
  constructor
  · decide
  · decide

/-- **C1** (amended): for every query, corpus, positive `topK` and
`minScore`, the output of the lightweight `rank` is sorted by match
score descending and has at most `topK` entries; ties are broken by
corpus position (the stable sort preserves the relative corpus order
inside every score class), not by recipe identifier. -/
theorem c1_rank_sorted_truncated_stable (recipes : List Recipe) (ingredients : List String)
    (topK : ℕ) (minScore : ℚ) (htopK : 1 ≤ topK) :
    (lightweightGetRecommendations recipes ingredients topK minScore).recommendations.length
        ≤ topK ∧
    (lightweightGetRecommendations recipes ingredients topK minScore).recommendations.Pairwise
      (fun a b => scoreVal b.match_score ≤ scoreVal a.match_score) ∧
    ∀ s : ScoreRep, s.n ≠ 0 → ∃ j,
      ((lightweightGetRecommendations recipes ingredients topK minScore).recommendations.map
          recommendedToScored).filter (fun z => scoreEqvB z.match_score s) =
        ((filteredScored recipes (lightNormalizeQuery ingredients) minScore).filter
          (fun z => scoreEqvB z.match_score s)).take j := by
  clear htopK
  refine ⟨?_, ?_, ?_⟩
  · simp only [lightweightGetRecommendations, List.length_map, List.length_take]
    exact min_le_left _ _
  · simp only [lightweightGetRecommendations, List.pairwise_map]
    have hF : ∀ sr ∈ filteredScored recipes (lightNormalizeQuery ingredients) minScore,
        sr.match_score.n ≠ 0 := filteredScored_n_ne_zero
    have hsorted := jsSortByScoreDesc_pairwise ScoredRecipe.match_score hF
    have htake := hsorted.sublist (List.take_sublist topK _)
    have hmem : ∀ z ∈ (jsSortByScoreDesc ScoredRecipe.match_score
        (filteredScored recipes (lightNormalizeQuery ingredients) minScore)).take topK,
        z.match_score.n ≠ 0 :=
      fun z hz => hF z (mem_jsSortByScoreDesc _ ((List.take_sublist _ _).mem hz))
    refine htake.imp_of_mem ?_
    intro a b ha hb hab
    have han := hmem a ha
    have hbn := hmem b hb
    exact (scoreVal_le_iff hbn han).mpr ((scoreLtB_eq_false_iff han hbn).mp hab)
  · intro s hs
    simp only [lightweightGetRecommendations, List.map_map]
    have hid : recommendedToScored ∘ addCoverage (lightNormalizeQuery ingredients) = id :=
      funext fun sr => rfl
    rw [hid, List.map_id]
    obtain ⟨j, hj⟩ := take_filter_eq_take (fun z => scoreEqvB z.match_score s)
      (jsSortByScoreDesc ScoredRecipe.match_score
        (filteredScored recipes (lightNormalizeQuery ingredients) minScore)) topK
    refine ⟨j, ?_⟩
    rw [hj, jsSortByScoreDesc_filter_eqv ScoredRecipe.match_score hs]

/-- Witness for C1 at a concrete corpus and query. -/
theorem c1_rank_sorted_truncated_stable_witness :
    (1 : ℕ) ≤ 1 ∧
    ((lightweightGetRecommendations [⟨1, "A", ["egg"]⟩] ["egg"] 1 0).recommendations.length
        ≤ 1 ∧
    (lightweightGetRecommendations [⟨1, "A", ["egg"]⟩] ["egg"] 1 0).recommendations.Pairwise
      (fun a b => scoreVal b.match_score ≤ scoreVal a.match_score) ∧
    ∀ s : ScoreRep, s.n ≠ 0 → ∃ j,
      ((lightweightGetRecommendations [⟨1, "A", ["egg"]⟩] ["egg"] 1 0).recommendations.map
          recommendedToScored).filter (fun z => scoreEqvB z.match_score s) =
        ((filteredScored [⟨1, "A", ["egg"]⟩] (lightNormalizeQuery ["egg"]) 0).filter
          (fun z => scoreEqvB z.match_score s)).take j) :=
  ⟨le_refl 1, c1_rank_sorted_truncated_stable [⟨1, "A", ["egg"]⟩] ["egg"] 1 0 (le_refl 1)⟩

/-! ### Claim C10 — determinism of `rank` -/

/-- Assemble the response from a chosen stable sorted order (the final
steps of `getRecommendations` after the sort). -/
def lightRunResult (ingredients : List String) (topK : ℕ) (normalized : List String)
    (sorted : List ScoredRecipe) : LightResponse :=
  let recommendations := (sorted.take topK).map (addCoverage normalized)
  ⟨true, recommendations.length, recommendations, ingredients⟩

/-- `out` is a possible result of `getRecommendations` when
`Array.prototype.sort` is interpreted as any stable sort consistent with
the comparator (the ECMAScript specification guarantees exactly that). -/
def lightRunAdmissible (recipes : List Recipe) (ingredients : List String) (topK : ℕ)
    (minScore : ℚ) (out : LightResponse) : Prop :=
  ∃ sorted : List ScoredRecipe,
    stableSortDescSpec ScoredRecipe.match_score
      (filteredScored recipes (lightNormalizeQuery ingredients) minScore) sorted ∧
    out = lightRunResult ingredients topK (lightNormalizeQuery ingredients) sorted

/-- The deterministic model is itself an admissible run. -/
theorem lightweightGetRecommendations_admissible (recipes : List Recipe)
    (ingredients : List String) (topK : ℕ) (minScore : ℚ) :
    lightRunAdmissible recipes ingredients topK minScore
      (lightweightGetRecommendations recipes ingredients topK minScore) :=
  ⟨jsSortByScoreDesc ScoredRecipe.match_score
      (filteredScored recipes (lightNormalizeQuery ingredients) minScore),
   jsSortByScoreDesc_spec ScoredRecipe.match_score _ filteredScored_n_ne_zero, rfl⟩

/-- **C10** (confirmed): the engine is deterministic — any two results
of `getRecommendations` on identical arguments and an unchanged corpus
are identical, including the order of the recommendation sequence, even
though `Array.prototype.sort` is only specified up to stability: the
stable descending order of the filtered corpus is unique. -/
theorem c10_rank_deterministic (recipes : List Recipe) (ingredients : List String)
    (topK : ℕ) (minScore : ℚ) (out₁ out₂ : LightResponse)
    (h₁ : lightRunAdmissible recipes ingredients topK minScore out₁)
    (h₂ : lightRunAdmissible recipes ingredients topK minScore out₂) :
    out₁ = out₂ := by
  obtain ⟨sorted₁, hspec₁, rfl⟩ := h₁
  obtain ⟨sorted₂, hspec₂, rfl⟩ := h₂
  rw [stableSortDescSpec_unique ScoredRecipe.match_score sorted₁ _ sorted₂
    filteredScored_n_ne_zero hspec₁ hspec₂]

/-- Witness for C10: the deterministic model output is admissible, and
two admissible runs at the same concrete input coincide. -/
theorem c10_rank_deterministic_witness :
    lightRunAdmissible [⟨1, "A", ["egg"]⟩] ["egg"] 5 0
      (lightweightGetRecommendations [⟨1, "A", ["egg"]⟩] ["egg"] 5 0) ∧
    lightweightGetRecommendations [⟨1, "A", ["egg"]⟩] ["egg"] 5 0 =
      lightweightGetRecommendations [⟨1, "A", ["egg"]⟩] ["egg"] 5 0 :=
  ⟨lightweightGetRecommendations_admissible _ _ _ _,
   c10_rank_deterministic [⟨1, "A", ["egg"]⟩] ["egg"] 5 0 _ _
     (lightweightGetRecommendations_admissible _ _ _ _)
     (lightweightGetRecommendations_admissible _ _ _ _)⟩

/-! ### Claim C6 — score range and the empty-ingredient-list recipe -/

theorem calculateMatchScore_n_ne_zero (userIngredients : List String) {recipe : Recipe}
    (h : recipe.ingredients ≠ []) :
    (calculateMatchScore userIngredients recipe).n ≠ 0 := by
  simp only [calculateMatchScore, List.length_map]
  rw [ne_eq, List.length_eq_zero]
  exact h

/-- **C6** (counterexample): for a recipe whose ingredient list is empty
the accumulated weight and the ingredient count are both `0`, and
`0 / Math.sqrt(0) = 0/0` is `NaN` — the match score is not a number in
`[0, 1]`, contradicting the claim. -/
theorem c6_empty_recipe_nan :
    scoreNum (calculateMatchScore ["tomato"] ⟨7, "Empty", []⟩) = none := by
  have h : calculateMatchScore ["tomato"] ⟨7, "Empty", []⟩ = ⟨0, 0⟩ := by decide
  rw [h]
  exact scoreNum_eq_none _ rfl

/-- **C6** (amended): for every query and every recipe whose ingredient
list is nonempty, the lexical match score is a real number in `[0, 1]`
(never `NaN`); the `NaN` arises exactly for the empty ingredient list. -/
theorem c6_score_in_unit_interval (userIngredients : List String) (recipe : Recipe)
    (h : recipe.ingredients ≠ []) :
    ∃ x : ℝ, scoreNum (calculateMatchScore userIngredients recipe) = some x ∧
      0 ≤ x ∧ x ≤ 1 :=
  ⟨scoreVal _, scoreNum_eq_some _ (calculateMatchScore_n_ne_zero userIngredients h),
    scoreVal_nonneg _, scoreVal_le_one _⟩

/-- Witness for C6 at a concrete query and recipe. -/
theorem c6_score_in_unit_interval_witness :
    (⟨1, "A", ["egg"]⟩ : Recipe).ingredients ≠ [] ∧
    ∃ x : ℝ, scoreNum (calculateMatchScore ["egg"] ⟨1, "A", ["egg"]⟩) = some x ∧
      0 ≤ x ∧ x ≤ 1 :=
  ⟨by decide, c6_score_in_unit_interval ["egg"] ⟨1, "A", ["egg"]⟩ (by decide)⟩

/-! ### Claim C2 — the lexical weight accumulation and score formula -/

/-- The full-match rule as the specification states it: case-insensitive
equality or substring containment in **either** direction (the code only
tests `recipeIng.includes(userIng)`). -/
def specFullMatchCond (userIng recipeIng : String) : Bool :=
  recipeIng == userIng || jsIncludes recipeIng userIng || jsIncludes userIng recipeIng

/-- Specification-side count of weight-1.0 pairs. -/
def specFullMatchesTotal (userIngredients recipeIngredients : List String) : ℕ :=
  (userIngredients.map
    (fun userIng => recipeIngredients.countP
      (fun recipeIng => specFullMatchCond userIng recipeIng))).sum

/-- Specification-side count of weight-0.5 pairs (only the
partial-word-match test holds). -/
def specPartialMatchesTotal (userIngredients recipeIngredients : List String) : ℕ :=
  (userIngredients.map
    (fun userIng => recipeIngredients.countP
      (fun recipeIng =>
        !specFullMatchCond userIng recipeIng && partialMatchCond userIng recipeIng))).sum

/-- **C2** (counterexample): for the normalized query ingredient
`"ab cd"` and recipe ingredient `"ab"`, `"ab"` is a substring of
`"ab cd"`, so the claim's rule accumulates weight 1.0 and predicts score
`min((1 + 0/2)/√1/2, 1) = 0.5`; the code tests containment only in the
direction `recipeIng.includes(userIng)` (and the tokens are too short
for a partial match), accumulates nothing, and scores `0`. -/
theorem c2_substring_direction_counterexample :
    scoreNum (calculateMatchScore ["ab cd"] ⟨1, "X", ["ab"]⟩) = some 0 ∧
    min (((specFullMatchesTotal ["ab cd"] ["ab"] : ℝ) +
        (specPartialMatchesTotal ["ab cd"] ["ab"] : ℝ) / 2)
      / Real.sqrt ((1 : ℕ) : ℝ) / 2) 1 = 1 / 2 ∧
    scoreNum (calculateMatchScore ["ab cd"] ⟨1, "X", ["ab"]⟩) ≠ some (1 / 2) := by
  have h : calculateMatchScore ["ab cd"] ⟨1, "X", ["ab"]⟩ = ⟨0, 1⟩ := by decide
  have hfull : specFullMatchesTotal ["ab cd"] ["ab"] = 1 := by decide
  have hpart : specPartialMatchesTotal ["ab cd"] ["ab"] = 0 := by decide
  have hnum : scoreNum (⟨0, 1⟩ : ScoreRep) = some 0 := by
    rw [scoreNum, if_neg (by norm_num)]
    norm_num [Real.sqrt_one]
  refine ⟨by rw [h, hnum], ?_, ?_⟩
  · rw [hfull, hpart]
    norm_num [Real.sqrt_one]
  · rw [h, hnum]
    intro hc
    have := Option.some.inj hc
    norm_num at this

/-- **C2** (amended): the accumulation is as the claim states except
that weight 1.0 requires equality or that the recipe ingredient
contains the query ingredient (`recipeIng.includes(userIng)` — one
direction only); a query ingredient that strictly contains the recipe
ingredient earns weight 1.0 only via that test, otherwise at most the
0.5 partial-word weight.  The total score is the accumulated weight
divided by the square root of the recipe's ingredient count, then by 2,
capped at 1.0. -/
theorem c2_lexical_score_formula (userIngredients : List String) (recipe : Recipe)
    (h : recipe.ingredients ≠ []) :
    scoreNum (calculateMatchScore userIngredients recipe) =
      some (min
        (((fullMatchesTotal userIngredients (recipe.ingredients.map jsToLower) : ℝ) +
            (partialMatchesTotal userIngredients (recipe.ingredients.map jsToLower) : ℝ) / 2)
          / Real.sqrt ((recipe.ingredients.length : ℕ) : ℝ) / 2) 1) := by
  have hn := calculateMatchScore_n_ne_zero userIngredients h
  rw [scoreNum_eq_some _ hn, scoreVal, if_neg hn]
  have hw : (calculateMatchScore userIngredients recipe).w =
      2 * fullMatchesTotal userIngredients (recipe.ingredients.map jsToLower) +
        partialMatchesTotal userIngredients (recipe.ingredients.map jsToLower) := by
    simp [calculateMatchScore, matchCounts_eq]
  have hn' : (calculateMatchScore userIngredients recipe).n = recipe.ingredients.length := by
    simp [calculateMatchScore]
  rw [hw, hn']
  congr 1
  push_cast
  ring

/-- Witness for C2 at a concrete query and recipe. -/
theorem c2_lexical_score_formula_witness :
    (⟨1, "A", ["egg"]⟩ : Recipe).ingredients ≠ [] ∧
    scoreNum (calculateMatchScore ["egg"] ⟨1, "A", ["egg"]⟩) =
      some (min
        (((fullMatchesTotal ["egg"] ((⟨1, "A", ["egg"]⟩ : Recipe).ingredients.map jsToLower) : ℝ) +
            (partialMatchesTotal ["egg"]
              ((⟨1, "A", ["egg"]⟩ : Recipe).ingredients.map jsToLower) : ℝ) / 2)
          / Real.sqrt (((⟨1, "A", ["egg"]⟩ : Recipe).ingredients.length : ℕ) : ℝ) / 2) 1) :=
  ⟨by decide, c2_lexical_score_formula ["egg"] ⟨1, "A", ["egg"]⟩ (by decide)⟩

/-! ### Claim C8 — set semantics of the query -/

theorem calculateMatchScore_perm {u₁ u₂ : List String} (recipe : Recipe)
    (h : u₁.Perm u₂) :
    calculateMatchScore u₁ recipe = calculateMatchScore u₂ recipe := by
  simp only [calculateMatchScore, matchCounts_eq, fullMatchesTotal, partialMatchesTotal]
  rw [(h.map _).sum_eq, (h.map _).sum_eq]

theorem dedupKeepFirstAux_append (a : String) :
    ∀ (A seen : List String), a ∈ A ∨ a ∈ seen →
      dedupKeepFirstAux seen (A ++ [a]) = dedupKeepFirstAux seen A := by
  intro A
  induction A with
  | nil =>
      intro seen h
      rcases h with h | h
      · exact absurd h (List.not_mem_nil a)
      · simp [dedupKeepFirstAux, h]
  | cons b B ih =>
      intro seen h
      by_cases hb : b ∈ seen
      · rw [List.cons_append, dedupKeepFirstAux, if_pos hb, dedupKeepFirstAux, if_pos hb]
        refine ih seen ?_
        rcases h with h | h
        · rcases List.mem_cons.mp h with rfl | h'
          · exact Or.inr hb
          · exact Or.inl h'
        · exact Or.inr h
      · rw [List.cons_append, dedupKeepFirstAux, if_neg hb, dedupKeepFirstAux, if_neg hb]
        rw [ih (b :: seen) ?_]
        rcases h with h | h
        · rcases List.mem_cons.mp h with rfl | h'
          · exact Or.inr (List.mem_cons_self a seen)
          · exact Or.inl h'
        · exact Or.inr (List.mem_cons_of_mem b h)

/-- **C8** (amended): scoring is order-insensitive — permuting the query
list leaves every recipe's match score unchanged — and the
Recommendation Service's `normalizeIngredients` collapses duplicates
(appending an ingredient that already occurs leaves the normalized query
unchanged).  Duplicates are *not* collapsed by the lightweight engine's
own normalization, so duplicating a query element can change the
lightweight match score (see the counterexample). -/
theorem c8_set_semantics :
    (∀ (l₁ l₂ : List String) (recipe : Recipe), l₁.Perm l₂ →
      calculateMatchScore (lightNormalizeQuery l₁) recipe =
        calculateMatchScore (lightNormalizeQuery l₂) recipe) ∧
    (∀ (l : List String) (x : String), x ∈ l →
      normalizeIngredients (l ++ [x]) = normalizeIngredients l) := by
  constructor
  · intro l₁ l₂ recipe h
    exact calculateMatchScore_perm recipe (h.map _)
  · intro l x hx
    rw [normalizeIngredients, normalizeIngredients, List.map_append, List.filter_append]
    by_cases hlen : (jsToLower (jsTrim x)).length > 0
    · have hfx : jsToLower (jsTrim x) ∈
          (l.map (fun ing => jsToLower (jsTrim ing))).filter (fun ing => ing.length > 0) := by
        rw [List.mem_filter]
        exact ⟨List.mem_map.mpr ⟨x, hx, rfl⟩, by simpa using hlen⟩
      rw [List.map_cons, List.map_nil, List.filter_cons]
      rw [if_pos (by simpa using hlen), List.filter_nil]
      exact dedupKeepFirstAux_append _ _ [] (Or.inl hfx)
    · rw [List.map_cons, List.map_nil, List.filter_cons]
      rw [if_neg (by simpa using hlen), List.filter_nil, List.append_nil]

/-- Witness for C8: a permuted query and an appended duplicate at
concrete inputs. -/
theorem c8_set_semantics_witness :
    (["egg", "flour"] : List String).Perm ["flour", "egg"] ∧
    calculateMatchScore (lightNormalizeQuery ["egg", "flour"]) ⟨1, "A", ["egg"]⟩ =
      calculateMatchScore (lightNormalizeQuery ["flour", "egg"]) ⟨1, "A", ["egg"]⟩ ∧
    ("egg" : String) ∈ (["egg", "flour"] : List String) ∧
    normalizeIngredients (["egg", "flour"] ++ ["egg"]) =
      normalizeIngredients ["egg", "flour"] := by
  have hperm : (["egg", "flour"] : List String).Perm ["flour", "egg"] := by decide
  have hmem : ("egg" : String) ∈ (["egg", "flour"] : List String) := by decide
  exact ⟨hperm, c8_set_semantics.1 ["egg", "flour"] ["flour", "egg"] ⟨1, "A", ["egg"]⟩ hperm,
    hmem, c8_set_semantics.2 ["egg", "flour"] "egg" hmem⟩

/-- **C8** (counterexample): duplicating the query element `"egg"`
doubles the accumulated weight against the recipe `["egg"]`: the score
representation changes from `⟨2, 1⟩` (value 0.5) to `⟨4, 1⟩` (value 1),
so duplicating an element does change `match_score` in the lightweight
engine. -/
theorem c8_duplicate_changes_score :
    calculateMatchScore (lightNormalizeQuery ["egg", "egg"]) ⟨1, "A", ["egg"]⟩ = ⟨4, 1⟩ ∧
    calculateMatchScore (lightNormalizeQuery ["egg"]) ⟨1, "A", ["egg"]⟩ = ⟨2, 1⟩ ∧
    scoreVal ⟨4, 1⟩ ≠ scoreVal ⟨2, 1⟩ := by
  refine ⟨by decide, by decide, ?_⟩
  have h4 : scoreVal ⟨4, 1⟩ = 1 := by
    rw [scoreVal, if_neg (by norm_num)]
    norm_num [Real.sqrt_one]
  have h2 : scoreVal ⟨2, 1⟩ = 1 / 2 := by
    rw [scoreVal, if_neg (by norm_num)]
    norm_num [Real.sqrt_one]
  rw [h4, h2]
  norm_num

/-! ### Claim C9 — ingredient coverage percentage -/

/-- **C9** (confirmed): every recommendation in the engine's output
carries `ingredient_match_percentage = covered / count * 100`, where a
(lowercased) recipe ingredient is covered exactly when some query
ingredient satisfies substring containment in either direction or the
partial-word-match test against it (`coveredCond`); and a recipe with 4
ingredients of which exactly 2 are covered gets 50. -/
theorem c9_coverage_percentage :
    (∀ (recipes : List Recipe) (ingredients : List String) (topK : ℕ) (minScore : ℚ)
      (rr : RecommendedRecipe),
      rr ∈ (lightweightGetRecommendations recipes ingredients topK minScore).recommendations →
      rr.ingredient_match_percentage =
        ((rr.recipe.ingredients.map jsToLower).countP
            (coveredCond (lightNormalizeQuery ingredients)) : ℚ) /
          (rr.recipe.ingredients.length : ℚ) * 100) ∧
    (∀ (userIngredients : List String) (recipe : Recipe),
      recipe.ingredients.length = 4 →
      (recipe.ingredients.map jsToLower).countP (coveredCond userIngredients) = 2 →
      calculateIngredientCoverage userIngredients recipe * 100 = 50) := by
  constructor
  · intro recipes ingredients topK minScore rr hrr
    obtain ⟨sr, _, rfl⟩ := mem_lightweight_recommendations hrr
    show calculateIngredientCoverage (lightNormalizeQuery ingredients) sr.recipe * 100 = _
    rw [calculateIngredientCoverage]
    rw [coveredCount_eq, List.length_map]
    rfl
  · intro userIngredients recipe h4 h2
    rw [calculateIngredientCoverage, coveredCount_eq, List.length_map, h4, h2]
    norm_num

/-- Witness for C9: the single recommendation returned for the query
`["egg"]` against the one-recipe corpus, and a 4-ingredient recipe with
exactly 2 covered ingredients. -/
theorem c9_coverage_percentage_witness :
    ((lightweightGetRecommendations [⟨1, "A", ["egg"]⟩] ["egg"] 5 0).recommendations.get
        ⟨0, by decide⟩ ∈
      (lightweightGetRecommendations [⟨1, "A", ["egg"]⟩] ["egg"] 5 0).recommendations) ∧
    (((lightweightGetRecommendations [⟨1, "A", ["egg"]⟩] ["egg"] 5
        0).recommendations.get ⟨0, by decide⟩).ingredient_match_percentage =
      ((((lightweightGetRecommendations [⟨1, "A", ["egg"]⟩] ["egg"] 5
            0).recommendations.get ⟨0, by decide⟩).recipe.ingredients.map jsToLower).countP
          (coveredCond (lightNormalizeQuery ["egg"])) : ℚ) /
        ((((lightweightGetRecommendations [⟨1, "A", ["egg"]⟩] ["egg"] 5
            0).recommendations.get ⟨0, by decide⟩).recipe.ingredients.length : ℚ)) * 100) ∧
    ((⟨3, "C", ["chicken broth", "rice", "salt", "pepper"]⟩ : Recipe).ingredients.length = 4) ∧
    (((⟨3, "C", ["chicken broth", "rice", "salt", "pepper"]⟩ : Recipe).ingredients.map
        jsToLower).countP (coveredCond ["chicken", "rice"]) = 2) ∧
    calculateIngredientCoverage ["chicken", "rice"]
        ⟨3, "C", ["chicken broth", "rice", "salt", "pepper"]⟩ * 100 = 50 := by
  refine ⟨List.get_mem _ _ _, ?_, by decide, by decide, ?_⟩
  · exact c9_coverage_percentage.1 [⟨1, "A", ["egg"]⟩] ["egg"] 5 0 _ (List.get_mem _ _ _)
  · exact c9_coverage_percentage.2 ["chicken", "rice"]
      ⟨3, "C", ["chicken broth", "rice", "salt", "pepper"]⟩ (by decide) (by decide)

/-! ### Claim C4 — the retry wrapper never raises and shapes failures -/

theorem svcRetryGo_shape (oracle : ℕ → Except String SvcResponse) (ingredients : List String)
    (topK : ℤ) (minScore : ℚ) (maxRetries : ℕ) :
    ∀ (remaining attempt : ℕ) (lastError : Option String),
      (∃ j, oracle j = .ok
        (svcRetryGo oracle ingredients topK minScore maxRetries attempt remaining lastError).1) ∨
      ((svcRetryGo oracle ingredients topK minScore maxRetries attempt remaining
          lastError).1.success = false ∧
       (svcRetryGo oracle ingredients topK minScore maxRetries attempt remaining
          lastError).1.count = 0 ∧
       (svcRetryGo oracle ingredients topK minScore maxRetries attempt remaining
          lastError).1.recommendations = [] ∧
       (svcRetryGo oracle ingredients topK minScore maxRetries attempt remaining
          lastError).1.query = ingredients ∧
       ∃ e, (svcRetryGo oracle ingredients topK minScore maxRetries attempt remaining
          lastError).1.error = some e) := by
  intro remaining
  induction remaining with
  | zero =>
      intro attempt lastError
      right
      simp [svcRetryGo, mkSvcFailure]
  | succ rem ih =>
      intro attempt lastError
      rw [svcRetryGo]
      cases hval : svcValidateInputs ingredients topK minScore with
      | error e =>
          simp only [svcGetRecommendations, hval]
          by_cases hlt : attempt < maxRetries
          · simpa [hlt] using ih (attempt + 1) (some e)
          · simpa [hlt] using ih (attempt + 1) (some e)
      | ok u =>
          cases hpy : oracle attempt with
          | ok r =>
              simp only [svcGetRecommendations, hval, hpy]
              exact Or.inl ⟨attempt, hpy⟩
          | error e =>
              simp only [svcGetRecommendations, hval, hpy]
              right
              simp [mkSvcFailure]

/-- **C4** (confirmed): `getRecommendationsWithRetry` is total — every
thrown error of an attempt is caught either by the `catch` inside
`getRecommendations` (rejected engine call) or by the retry loop's
`catch` (validation error), so the wrapper always returns a structured
result — and every response it returns is either an engine response
passed through unchanged or a service-constructed failure with
`success = false`, `count = 0`, an empty recommendation list, the
echoed query and an error message. -/
theorem c4_service_never_raises (oracle : ℕ → Except String SvcResponse)
    (ingredients : List String) (topK : ℤ) (minScore : ℚ) (maxRetries : ℕ) :
    (∃ j, oracle j = .ok
      (svcGetRecommendationsWithRetry oracle ingredients topK minScore maxRetries).1) ∨
    ((svcGetRecommendationsWithRetry oracle ingredients topK minScore
        maxRetries).1.success = false ∧
     (svcGetRecommendationsWithRetry oracle ingredients topK minScore
        maxRetries).1.count = 0 ∧
     (svcGetRecommendationsWithRetry oracle ingredients topK minScore
        maxRetries).1.recommendations = [] ∧
     (svcGetRecommendationsWithRetry oracle ingredients topK minScore
        maxRetries).1.query = ingredients ∧
     ∃ e, (svcGetRecommendationsWithRetry oracle ingredients topK minScore
        maxRetries).1.error = some e) :=
  svcRetryGo_shape oracle ingredients topK minScore maxRetries (maxRetries + 1) 0 none

/-! ### Claim C3 — invalid input is retried, not failed fast -/

/-- A healthy engine response (never reached in the C3 scenario). -/
def healthyResponse : SvcResponse := ⟨true, 0, [], [], none⟩

/-- **C3** (violated by the code): with `ingredients = []`, validation
throws *outside* the `try` block of `getRecommendations`, so the retry
loop catches it, sleeps 1 and then 2 time-units, re-validates twice
more, and only then fails with "Failed after 3 attempts: ..." — the
invalid input is detected before any engine invocation (the oracle is
never consulted), but it *is* retried with backoff, contradicting the
claim's "never retries / produced immediately". -/
theorem c3_invalid_input_retried :
    svcGetRecommendationsWithRetry (fun _ => .ok healthyResponse) [] 5 0 2 =
      (mkSvcFailure [] "Failed after 3 attempts: At least one ingredient must be provided",
        [1, 2]) ∧
    svcValidateInputs [] 5 0 = .error "At least one ingredient must be provided" := by
  exact ⟨by decide, rfl⟩

/-! ### Claim C5 — transient engine failures are not retried at all -/

/-- An engine that fails on attempts 0 and 1 and succeeds on attempt 2. -/
def engineFailTwiceOracle : ℕ → Except String SvcResponse :=
  fun k => if k = 2 then .ok ⟨true, 1, [], ["chicken"], none⟩ else .error "engine down"

/-- **C5** (violated by the code): the fail-fail-succeed engine scenario
the claim describes does not yield `success = true` after 1 + 2 units of
backoff: the first rejected engine call is caught *inside*
`getRecommendations` and converted into a structured `success = false`
result, which the retry loop treats as a successful attempt and returns
immediately — no sleep ever happens and attempts 1 and 2 are never made,
even though attempt 2 would have succeeded. -/
theorem c5_transient_failure_not_retried :
    engineFailTwiceOracle 2 = .ok ⟨true, 1, [], ["chicken"], none⟩ ∧
    svcGetRecommendationsWithRetry engineFailTwiceOracle ["chicken"] 5 0 2 =
      (mkSvcFailure ["chicken"] "engine down", []) ∧
    (mkSvcFailure ["chicken"] "engine down").success = false := by
  exact ⟨rfl, by decide, rfl⟩

/-! ### Claim C7 — the lightweight engine never validates -/

/-- **C7** (violated by the code): the lightweight engine's
`getRecommendations` never calls its own `validateInputs`: with
`topK = 0` (not a positive integer) and `minScore = 2` (outside [0,1])
it still returns `success = true` (with an empty list), while the dead
`validateInputs` would have rejected exactly this input. -/
theorem c7_lightweight_no_validation :
    (lightweightGetRecommendations [⟨1, "A", ["egg"]⟩] ["egg"] 0 2).success = true ∧
    (lightweightGetRecommendations [⟨1, "A", ["egg"]⟩] ["egg"] 0 2).recommendations = [] ∧
    lightValidateInputs ["egg"] 0 2 = .error "topK must be between 1 and 50" := by
  exact ⟨rfl, by decide, rfl⟩
